import Mathlib

/-!
# HealthRadar-Interim: verification of the spec's claims against the code

Shallow embedding of the Python batch scripts (`Practiceinformation.py`,
`HealthDepriviation_2019.py`, `gppatientregister.py`, `gpcountwithage.py`)
in Lean 4. Missing values (pandas `NaN`, non-string cells) are modelled by
`Option String` with `none` as the missing marker; dataframes are lists of
rows; pandas joins and group-bys are given explicit list semantics that
match pandas' documented behaviour on string-typed frames (in particular,
`merge` matches `NaN` keys with `NaN` keys, `drop_duplicates` keeps the
first occurrence, and `groupby(..., sort=True)` orders keys ascending).
-/

namespace HealthRadar

/-- Python's `\s` regex class restricted to the ASCII whitespace characters
(space, tab, newline, carriage return, vertical tab, form feed); the model
for `re.sub(r"\s+", ...)` and `str.strip()` in the scripts. -/
def pyIsSpace (c : Char) : Bool :=
  c == ' ' || c == '\t' || c == '\n' || c == '\r' || c == '\x0b' || c == '\x0c'

/-- Python `str.upper()`, character-wise (ASCII letters, as in the data). -/
def pyUpper (s : String) : String :=
  ⟨s.data.map Char.toUpper⟩

/-- Python `str.lower()`, character-wise (ASCII letters, as in the data). -/
def pyLower (s : String) : String :=
  ⟨s.data.map Char.toLower⟩

/-- Python `str.strip()`: drop leading and trailing whitespace. -/
def pyStripList (l : List Char) : List Char :=
  ((l.dropWhile pyIsSpace).reverse.dropWhile pyIsSpace).reverse

/-- Python `str.strip()` on strings. -/
def pyStrip (s : String) : String :=
  ⟨pyStripList s.data⟩

/-- `re.sub(r"\s+", "", s)`: delete every whitespace character. -/
def stripAllWs (l : List Char) : List Char :=
  l.filter (fun c => !pyIsSpace c)

/--
`format_uk_postcode` from `Practiceinformation.py` (lines 46-56):
non-string input (`NaN`) yields `NaN`; otherwise uppercase, delete all
whitespace, and if the compacted length is ≥ 5 insert a single space three
characters before the end (`s[:-3] + " " + s[-3:]`), else return the
compacted string unchanged.
-/
def format_uk_postcode : Option String → Option String
  | none => none
  | some pc =>
    let s := stripAllWs (pyUpper pc).data
    if 5 ≤ s.length then
      some ⟨s.take (s.length - 3) ++ ' ' :: s.drop (s.length - 3)⟩
    else
      some ⟨s⟩

/--
`first_nonnull` from `Practiceinformation.py` (lines 59-64): return the
trimmed form of the first argument that is a string whose trim is
non-empty (Python truthiness of `v.strip()`); non-string arguments
(`NaN`, modelled by `none`) are skipped; if nothing qualifies, `NaN`.
-/
def first_nonnull : List (Option String) → Option String
  | [] => none
  | none :: rest => first_nonnull rest
  | some v :: rest =>
    if pyStrip v = "" then first_nonnull rest else some (pyStrip v)

/-- The per-field coalesce performed in `run` (line 201): postcode-exact
join value first, outcode-fallback value second. -/
def coalesce (pcVal ocVal : Option String) : Option String :=
  first_nonnull [pcVal, ocVal]

/-! ### Facts about `Char.toUpper` needed for the normalizer claims -/

theorem char_ofNat_toNat_of_valid {n : Nat} (h : n.isValidChar) :
    (Char.ofNat n).toNat = n := by
  rw [Char.ofNat, dif_pos h]
  rfl

theorem toUpper_toNat (c : Char) :
    (Char.toUpper c).toNat =
      if 97 ≤ c.toNat ∧ c.toNat ≤ 122 then c.toNat - 32 else c.toNat := by
  unfold Char.toUpper
  by_cases h : 97 ≤ c.toNat ∧ c.toNat ≤ 122
  · rw [if_pos h, if_pos ⟨h.1, h.2⟩]
    exact char_ofNat_toNat_of_valid (Or.inl (by omega))
  · rw [if_neg h, if_neg h]

theorem toUpper_not_lower (c : Char) :
    ¬(97 ≤ (Char.toUpper c).toNat ∧ (Char.toUpper c).toNat ≤ 122) := by
  rw [toUpper_toNat]
  by_cases h : 97 ≤ c.toNat ∧ c.toNat ≤ 122
  · rw [if_pos h]; omega
  · rw [if_neg h]; omega

theorem toUpper_idem (c : Char) :
    Char.toUpper (Char.toUpper c) = Char.toUpper c := by
  conv_lhs => unfold Char.toUpper
  exact if_neg (toUpper_not_lower c)

/-- Every character that survives uppercase-then-strip-whitespace is a fixed
point of `Char.toUpper` and is not whitespace. -/
theorem mem_stripAllWs_upper (s : String) (c : Char)
    (hc : c ∈ stripAllWs (pyUpper s).data) :
    Char.toUpper c = c ∧ pyIsSpace c = false := by
  have hc' : c ∈ (s.data.map Char.toUpper).filter (fun c => !pyIsSpace c) := hc
  rw [List.mem_filter] at hc'
  obtain ⟨hmem, hsp⟩ := hc'
  obtain ⟨a, _, rfl⟩ := List.mem_map.mp hmem
  refine ⟨toUpper_idem a, ?_⟩
  simpa using hsp

/-- Re-normalizing a list of `toUpper`-fixed non-whitespace characters is the
identity. -/
theorem normalize_fixed (l : List Char)
    (h : ∀ c ∈ l, Char.toUpper c = c ∧ pyIsSpace c = false) :
    stripAllWs (l.map Char.toUpper) = l := by
  induction l with
  | nil => rfl
  | cons a as ih =>
    obtain ⟨h1, h2⟩ := h a (List.mem_cons_self a as)
    have ih' := ih (fun c hc => h c (List.mem_cons_of_mem a hc))
    simp only [stripAllWs, List.map_cons, List.filter_cons, h1, h2] at ih' ⊢
    simp only [Bool.not_false, if_true, ih']

end HealthRadar

namespace HealthRadar

/--
**C3**: the postcode normalizer is total: non-string input yields the
missing marker; a string input is uppercased, has all whitespace removed,
and — when the compacted length is at least 5 — a single space is inserted
three characters before the end, leaving an incode of exactly 3 characters
and exactly one space in the output; shorter compacted strings are
returned unchanged. Examples: `" sw1a 1aa "` maps to `"SW1A 1AA"` and
`"AB1"` to `"AB1"`.
-/
theorem C3_postcode_normalizer_total :
    format_uk_postcode none = none ∧
    (∀ s : String,
      (5 ≤ (stripAllWs (pyUpper s).data).length →
        format_uk_postcode (some s) =
          some ⟨(stripAllWs (pyUpper s).data).take
                  ((stripAllWs (pyUpper s).data).length - 3) ++
                ' ' :: (stripAllWs (pyUpper s).data).drop
                  ((stripAllWs (pyUpper s).data).length - 3)⟩ ∧
        ((stripAllWs (pyUpper s).data).drop
          ((stripAllWs (pyUpper s).data).length - 3)).length = 3 ∧
        ((stripAllWs (pyUpper s).data).take
            ((stripAllWs (pyUpper s).data).length - 3) ++
          ' ' :: (stripAllWs (pyUpper s).data).drop
            ((stripAllWs (pyUpper s).data).length - 3)).count ' ' = 1) ∧
      ((stripAllWs (pyUpper s).data).length < 5 →
        format_uk_postcode (some s) = some ⟨stripAllWs (pyUpper s).data⟩)) ∧
    format_uk_postcode (some " sw1a 1aa ") = some "SW1A 1AA" ∧
    format_uk_postcode (some "AB1") = some "AB1" := by
  refine ⟨rfl, ?_, by decide, by decide⟩
  intro s
  have hnosp : ' ' ∉ stripAllWs (pyUpper s).data := by
    intro hmem
    have := (mem_stripAllWs_upper s ' ' hmem).2
    simp [pyIsSpace] at this
  constructor
  · intro h5
    refine ⟨?_, ?_, ?_⟩
    · show (if 5 ≤ (stripAllWs (pyUpper s).data).length then _ else _) = _
      rw [if_pos h5]
    · rw [List.length_drop]
      omega
    · have h1 : ((stripAllWs (pyUpper s).data).take
          ((stripAllWs (pyUpper s).data).length - 3)).count ' ' = 0 := by
        rw [List.count_eq_zero]
        intro hmem
        exact hnosp (List.mem_of_mem_take hmem)
      have h2 : ((stripAllWs (pyUpper s).data).drop
          ((stripAllWs (pyUpper s).data).length - 3)).count ' ' = 0 := by
        rw [List.count_eq_zero]
        intro hmem
        exact hnosp (List.mem_of_mem_drop hmem)
      rw [List.count_append, List.count_cons, h1, h2]
      simp
  · intro h5
    show (if 5 ≤ (stripAllWs (pyUpper s).data).length then _ else _) = _
    rw [if_neg (by omega)]

/-- Concrete instantiation of `C3_postcode_normalizer_total` discharging its
hypotheses at `"sw1a1aa"`. -/
theorem C3_postcode_normalizer_total_witness :
    5 ≤ (stripAllWs (pyUpper "sw1a1aa").data).length ∧
    format_uk_postcode (some "sw1a1aa") = some "SW1A 1AA" := by
  refine ⟨by decide, ?_⟩
  have h := ((C3_postcode_normalizer_total.2.1 "sw1a1aa").1 (by decide)).1
  exact h.trans (by decide)

/-- Unfolding equation for `format_uk_postcode` on present values. -/
theorem format_uk_postcode_some (p : String) :
    format_uk_postcode (some p) =
      if 5 ≤ (stripAllWs (pyUpper p).data).length then
        some ⟨(stripAllWs (pyUpper p).data).take
                ((stripAllWs (pyUpper p).data).length - 3) ++
              ' ' :: (stripAllWs (pyUpper p).data).drop
                ((stripAllWs (pyUpper p).data).length - 3)⟩
      else some ⟨stripAllWs (pyUpper p).data⟩ := rfl

/--
**C9**: the postcode normalizer is idempotent: for every string `s`,
`format_uk_postcode (format_uk_postcode s) = format_uk_postcode s`, so an
already-normalized postcode is left unchanged by re-normalization.
-/
theorem C9_normalizer_idempotent (s : String) :
    format_uk_postcode (format_uk_postcode (some s)) =
      format_uk_postcode (some s) := by
  have hfix : ∀ c ∈ stripAllWs (pyUpper s).data,
      Char.toUpper c = c ∧ pyIsSpace c = false :=
    fun c hc => mem_stripAllWs_upper s c hc
  by_cases h5 : 5 ≤ (stripAllWs (pyUpper s).data).length
  · rw [format_uk_postcode_some s, if_pos h5]
    have hre : stripAllWs (pyUpper (String.mk
        ((stripAllWs (pyUpper s).data).take
            ((stripAllWs (pyUpper s).data).length - 3) ++
          ' ' :: (stripAllWs (pyUpper s).data).drop
            ((stripAllWs (pyUpper s).data).length - 3)))).data =
        stripAllWs (pyUpper s).data := by
      show stripAllWs (List.map Char.toUpper
        ((stripAllWs (pyUpper s).data).take
            ((stripAllWs (pyUpper s).data).length - 3) ++
          ' ' :: (stripAllWs (pyUpper s).data).drop
            ((stripAllWs (pyUpper s).data).length - 3))) =
        stripAllWs (pyUpper s).data
      rw [List.map_append, List.map_cons]
      have hsp : Char.toUpper ' ' = ' ' := by decide
      rw [hsp]
      have htk := normalize_fixed
        ((stripAllWs (pyUpper s).data).take
          ((stripAllWs (pyUpper s).data).length - 3))
        (fun c hc => hfix c (List.mem_of_mem_take hc))
      have hdr := normalize_fixed
        ((stripAllWs (pyUpper s).data).drop
          ((stripAllWs (pyUpper s).data).length - 3))
        (fun c hc => hfix c (List.mem_of_mem_drop hc))
      unfold stripAllWs at htk hdr ⊢
      rw [List.filter_append, List.filter_cons]
      have hspf : (!pyIsSpace ' ') = false := by decide
      rw [hspf]
      simp only [Bool.false_eq_true, if_false]
      rw [htk, hdr, List.take_append_drop]
    rw [format_uk_postcode_some, hre, if_pos h5]
  · rw [format_uk_postcode_some s, if_neg h5]
    have hre : stripAllWs (pyUpper (String.mk (stripAllWs (pyUpper s).data))).data =
        stripAllWs (pyUpper s).data := by
      show stripAllWs (List.map Char.toUpper (stripAllWs (pyUpper s).data)) =
        stripAllWs (pyUpper s).data
      exact normalize_fixed _ hfix
    rw [format_uk_postcode_some, hre, if_neg h5]

end HealthRadar

namespace HealthRadar

/-! ### `str.strip()` is idempotent; `first_nonnull` output invariant (C10) -/

theorem dropWhile_dropWhile (p : Char → Bool) (l : List Char) :
    (l.dropWhile p).dropWhile p = l.dropWhile p := by
  cases h : l.dropWhile p with
  | nil => simp
  | cons c t =>
    have hc : p c = false := by
      have h0 := List.head?_dropWhile_not p l
      rw [h] at h0
      simpa using h0
    simp [List.dropWhile_cons, hc]

theorem pyStripList_prefix (l : List Char) :
    pyStripList l <+: l.dropWhile pyIsSpace := by
  unfold pyStripList
  have h := List.dropWhile_suffix (l := (l.dropWhile pyIsSpace).reverse) pyIsSpace
  have h2 := List.reverse_prefix.mpr h
  rwa [List.reverse_reverse] at h2

theorem dropWhile_pyStripList (l : List Char) :
    (pyStripList l).dropWhile pyIsSpace = pyStripList l := by
  cases hs : pyStripList l with
  | nil => simp
  | cons c t =>
    have hpre := pyStripList_prefix l
    rw [hs] at hpre
    have hne : l.dropWhile pyIsSpace ≠ [] :=
      hpre.ne_nil (by simp)
    have hc := List.head_dropWhile_not pyIsSpace l hne
    have hch := hpre.head (by simp)
    rw [List.head_cons] at hch
    rw [← hch] at hc
    simp [List.dropWhile_cons, hc]

theorem pyStripList_back_clean (l : List Char) :
    (pyStripList l).reverse.dropWhile pyIsSpace = (pyStripList l).reverse := by
  unfold pyStripList
  rw [List.reverse_reverse]
  exact dropWhile_dropWhile _ _

theorem pyStripList_idem (l : List Char) :
    pyStripList (pyStripList l) = pyStripList l := by
  calc pyStripList (pyStripList l)
      = (((pyStripList l).dropWhile pyIsSpace).reverse.dropWhile pyIsSpace).reverse := rfl
    _ = ((pyStripList l).reverse.dropWhile pyIsSpace).reverse := by
          rw [dropWhile_pyStripList]
    _ = (pyStripList l).reverse.reverse := by rw [pyStripList_back_clean]
    _ = pyStripList l := List.reverse_reverse _

theorem pyStrip_idem (s : String) : pyStrip (pyStrip s) = pyStrip s :=
  String.ext (pyStripList_idem s.data)

/--
**C10**: every value `first_nonnull` (and hence every coalesced appended
field of the merger) produces is either missing or a non-empty string with
no leading or trailing whitespace: it returns the trimmed form of the
first argument that is a string with non-empty trim and skips every
non-string (`NaN`) argument.
-/
theorem C10_coalesced_fields_trimmed :
    (∀ vals : List (Option String),
      first_nonnull vals = none ∨
      ∃ t, first_nonnull vals = some t ∧ t ≠ "" ∧ pyStrip t = t) ∧
    (∀ x y : Option String,
      coalesce x y = none ∨
      ∃ t, coalesce x y = some t ∧ t ≠ "" ∧ pyStrip t = t) ∧
    (∀ rest : List (Option String),
      first_nonnull (none :: rest) = first_nonnull rest) ∧
    (∀ (s : String) (rest : List (Option String)), pyStrip s ≠ "" →
      first_nonnull (some s :: rest) = some (pyStrip s)) := by
  have main : ∀ vals : List (Option String),
      first_nonnull vals = none ∨
      ∃ t, first_nonnull vals = some t ∧ t ≠ "" ∧ pyStrip t = t := by
    intro vals
    induction vals with
    | nil => exact Or.inl rfl
    | cons v rest ih =>
      cases v with
      | none =>
        rw [show first_nonnull (none :: rest) = first_nonnull rest from rfl]
        exact ih
      | some s =>
        rw [show first_nonnull (some s :: rest) =
          (if pyStrip s = "" then first_nonnull rest else some (pyStrip s)) from rfl]
        by_cases h : pyStrip s = ""
        · rw [if_pos h]
          exact ih
        · rw [if_neg h]
          exact Or.inr ⟨pyStrip s, rfl, h, pyStrip_idem s⟩
  refine ⟨main, fun x y => main [x, y], fun rest => rfl, fun s rest h => ?_⟩
  show (if pyStrip s = "" then first_nonnull rest else some (pyStrip s)) = _
  rw [if_neg h]

/-- Concrete instantiation of `C10_coalesced_fields_trimmed` discharging its
hypothesis at `" Region X "`. -/
theorem C10_coalesced_fields_trimmed_witness :
    pyStrip " Region X " ≠ "" ∧
    first_nonnull [some " Region X "] = some "Region X" := by
  refine ⟨by decide, ?_⟩
  have h := C10_coalesced_fields_trimmed.2.2.2 " Region X " [] (by decide)
  exact h.trans (by decide)

end HealthRadar

namespace HealthRadar

/-! ### Record Merger: two-pass join with outcode fallback
(`Practiceinformation.py`, `run`, lines 173-203) -/

/-- One row of the slimmed reference table `map_slim`: the normalized
postcode `_PCD2_fmt`, the outcode `_Outcode`, and the kept geography
columns (positional). -/
structure RefRow where
  pcd2 : Option String
  outcode : Option String
  geo : List (Option String)

/-- One row of the primary table `gp_core` (fields other than the join key
are irrelevant to the merge claims). -/
structure GPRow where
  practiceCode : Option String
  postCode : Option String

/-- The reference rows a single primary row picks up in a pandas left
merge: all rows with an equal key (pandas matches `NaN` keys with `NaN`
keys), or a single all-`NaN` row when nothing matches. -/
def joinMatches {β : Type} (rs : List β) (kb : β → Option String)
    (key : Option String) : List (Option β) :=
  match rs.filter (fun r => kb r == key) with
  | [] => [none]
  | m :: ms => (m :: ms).map some

/-- pandas `DataFrame.merge(how="left", left_on=ka, right_on=kb)`. -/
def leftJoin {α β : Type} (ps : List α) (rs : List β)
    (ka : α → Option String) (kb : β → Option String) : List (α × Option β) :=
  ps.flatMap (fun p => (joinMatches rs kb (ka p)).map (fun m => (p, m)))

/-- Auxiliary recursion for `drop_duplicates`, carrying the keys already
seen. -/
def dedupByKeyAux {β κ : Type} [BEq κ] (k : β → κ) :
    List κ → List β → List β
  | _, [] => []
  | seen, r :: rest =>
    if seen.contains (k r) then dedupByKeyAux k seen rest
    else r :: dedupByKeyAux k (k r :: seen) rest

/-- pandas `DataFrame.drop_duplicates(col)` (default `keep="first"`): keep
the first row for each distinct key, in encounter order. -/
def drop_duplicates {β κ : Type} [BEq κ] (rs : List β) (k : β → κ) : List β :=
  dedupByKeyAux k [] rs

/-- pandas `s.str.split().str[0]`: the first whitespace-delimited token of
a string, or missing when the string is empty or all-whitespace. -/
def firstWsToken (s : String) : Option String :=
  match s.data.dropWhile pyIsSpace with
  | [] => none
  | c :: cs => some ⟨(c :: cs).takeWhile (fun c => !pyIsSpace c)⟩

/-- `m1["PostCode"].str.split().str[0]` (line 185): outcode of a possibly
missing normalized postcode. -/
def outcodeOfPostcode (pc : Option String) : Option String :=
  pc.bind firstWsToken

/-- Pass 1 (lines 175-181): left-join `gp_core` to `map_slim` on exact
normalized postcode. -/
def merge1 (gp : List GPRow) (refs : List RefRow) :
    List (GPRow × Option RefRow) :=
  leftJoin gp refs (fun g => g.postCode) (fun r => r.pcd2)

/-- Pass 2 (lines 186-192): left-join the pass-1 result to the
outcode-deduplicated reference table on the derived outcode. -/
def merge2 (m1 : List (GPRow × Option RefRow)) (refs : List RefRow) :
    List ((GPRow × Option RefRow) × Option RefRow) :=
  leftJoin m1 (drop_duplicates refs (fun r => r.outcode))
    (fun pr => outcodeOfPostcode pr.1.postCode) (fun r => r.outcode)

/-- The full two-pass merge of `run`. -/
def two_pass_merge (gp : List GPRow) (refs : List RefRow) :
    List ((GPRow × Option RefRow) × Option RefRow) :=
  merge2 (merge1 gp refs) refs

/-- Value of geography column `i` carried by an optional joined reference
row (`NaN` column when the join found no match). -/
def geoField (r : Option RefRow) (i : Nat) : Option String :=
  r.bind (fun rr => rr.geo.getD i none)

/-- The coalesced output field of `run` (lines 194-203) for a merged row:
`first_nonnull(postcode-exact value, outcode-fallback value)`. -/
def mergedGeoField (row : (GPRow × Option RefRow) × Option RefRow)
    (i : Nat) : Option String :=
  coalesce (geoField row.1.2 i) (geoField row.2 i)

end HealthRadar

namespace HealthRadar

/-! ### Join lemmas -/

theorem find?_eq_head?_filter {β : Type} (q : β → Bool) (l : List β) :
    l.find? q = (l.filter q).head? := by
  induction l with
  | nil => rfl
  | cons a as ih =>
    by_cases h : q a
    · rw [List.find?_cons_of_pos _ h, List.filter_cons_of_pos h, List.head?_cons]
    · rw [List.find?_cons_of_neg _ h, List.filter_cons_of_neg h, ih]

/-- When the reference keys are pairwise distinct, filtering by key equals
the first (and only) match. -/
theorem filter_key_eq_of_nodup {β : Type} (kb : β → Option String)
    (rs : List β) (hnd : (rs.map kb).Nodup) (key : Option String) :
    rs.filter (fun r => kb r == key) =
      (rs.find? (fun r => kb r == key)).toList := by
  induction rs with
  | nil => rfl
  | cons r rest ih =>
    rw [List.map_cons, List.nodup_cons] at hnd
    obtain ⟨hnotin, hnd2⟩ := hnd
    by_cases h : (kb r == key) = true
    · have hkey : kb r = key := eq_of_beq h
      have hempty : rest.filter (fun r' => kb r' == key) = [] := by
        rw [List.filter_eq_nil_iff]
        intro x hx hmatch
        have hx2 : kb x = kb r := (eq_of_beq hmatch).trans hkey.symm
        exact hnotin (hx2 ▸ List.mem_map_of_mem kb hx)
      simp only [List.filter_cons, List.find?_cons, h, if_true, hempty]
      rfl
    · have hb : (kb r == key) = false := Bool.eq_false_iff.mpr h
      simp only [List.filter_cons, List.find?_cons, hb, Bool.false_eq_true,
        if_false]
      exact ih hnd2

theorem joinMatches_eq {β : Type} (rs : List β) (kb : β → Option String)
    (key : Option String) (hnd : (rs.map kb).Nodup) :
    joinMatches rs kb key = [rs.find? (fun r => kb r == key)] := by
  unfold joinMatches
  rw [filter_key_eq_of_nodup kb rs hnd key]
  cases rs.find? (fun r => kb r == key) with
  | none => rfl
  | some r => rfl

/-- A left join against a table with pairwise-distinct keys pairs each
primary row with the unique matching reference row (or `NaN`): one output
row per primary row. -/
theorem leftJoin_eq_map_find {α β : Type} (ps : List α) (rs : List β)
    (ka : α → Option String) (kb : β → Option String)
    (hnd : (rs.map kb).Nodup) :
    leftJoin ps rs ka kb =
      ps.map (fun p => (p, rs.find? (fun r => kb r == ka p))) := by
  unfold leftJoin
  induction ps with
  | nil => rfl
  | cons p ps ih =>
    rw [List.flatMap_cons, joinMatches_eq rs kb (ka p) hnd]
    rw [List.map_cons, List.map_cons, List.map_nil, List.singleton_append, ih]

/-! ### `drop_duplicates` lemmas -/

theorem dedupByKeyAux_filter {β κ : Type} [BEq κ] [LawfulBEq κ] (k : β → κ)
    (rs : List β) : ∀ (seen : List κ) (key : κ),
    (dedupByKeyAux k seen rs).filter (fun r => k r == key) =
      if seen.contains key then [] else
        (rs.find? (fun r => k r == key)).toList := by
  induction rs with
  | nil =>
    intro seen key
    by_cases h : seen.contains key = true
    · rw [if_pos h]; rfl
    · rw [if_neg h]; rfl
  | cons r rest ih =>
    intro seen key
    have heq : dedupByKeyAux k seen (r :: rest) =
        if seen.contains (k r) then dedupByKeyAux k seen rest
        else r :: dedupByKeyAux k (k r :: seen) rest := rfl
    rw [heq]
    by_cases hs : seen.contains (k r) = true
    · rw [if_pos hs, ih seen key]
      by_cases hk : (k r == key) = true
      · have hck : seen.contains key = true := by
          rw [← eq_of_beq hk]; exact hs
        rw [if_pos hck, if_pos hck]
      · have hb : (k r == key) = false := Bool.eq_false_iff.mpr hk
        simp only [List.find?_cons, hb]
    · rw [if_neg hs, List.filter_cons]
      by_cases hk : (k r == key) = true
      · have hkey : k r = key := eq_of_beq hk
        rw [if_pos hk, ih (k r :: seen) key]
        have hck1 : (k r :: seen).contains key = true := by
          rw [List.contains_cons]
          have hb : (key == k r) = true := beq_iff_eq.mpr hkey.symm
          rw [hb, Bool.true_or]
        rw [if_pos hck1]
        have hck2 : seen.contains key = false := by
          rw [← hkey]
          exact Bool.eq_false_iff.mpr hs
        rw [if_neg (by rw [hck2]; exact Bool.false_ne_true)]
        simp only [List.find?_cons, hk, if_true]
        rfl
      · rw [if_neg hk, ih (k r :: seen) key]
        have hck : (k r :: seen).contains key = seen.contains key := by
          rw [List.contains_cons]
          have hb : (key == k r) = false := by
            rw [Bool.eq_false_iff]
            intro hb
            exact absurd (beq_iff_eq.mpr (eq_of_beq hb).symm) (by simpa using hk)
          rw [hb, Bool.false_or]
        have hb2 : (k r == key) = false := Bool.eq_false_iff.mpr hk
        rw [hck]
        simp only [List.find?_cons, hb2, Bool.false_eq_true, if_false]

theorem drop_duplicates_filter {β κ : Type} [BEq κ] [LawfulBEq κ]
    (k : β → κ) (rs : List β) (key : κ) :
    (drop_duplicates rs k).filter (fun r => k r == key) =
      (rs.find? (fun r => k r == key)).toList := by
  have h := dedupByKeyAux_filter k rs [] key
  rwa [if_neg (by simp)] at h

theorem dedupByKeyAux_keys_nodup {β κ : Type} [BEq κ] [LawfulBEq κ]
    (k : β → κ) (rs : List β) : ∀ seen : List κ,
    ((dedupByKeyAux k seen rs).map k).Nodup ∧
    (∀ x ∈ (dedupByKeyAux k seen rs).map k, seen.contains x = false) := by
  induction rs with
  | nil =>
    intro seen
    refine ⟨List.nodup_nil, ?_⟩
    intro x hx
    rw [show dedupByKeyAux k seen ([] : List β) = [] from rfl] at hx
    simp at hx
  | cons r rest ih =>
    intro seen
    have heq : dedupByKeyAux k seen (r :: rest) =
        if seen.contains (k r) then dedupByKeyAux k seen rest
        else r :: dedupByKeyAux k (k r :: seen) rest := rfl
    rw [heq]
    by_cases hs : seen.contains (k r) = true
    · rw [if_pos hs]
      exact ih seen
    · rw [if_neg hs]
      obtain ⟨hnd, hnotin⟩ := ih (k r :: seen)
      constructor
      · rw [List.map_cons, List.nodup_cons]
        refine ⟨?_, hnd⟩
        intro hmem
        have h := hnotin _ hmem
        rw [List.contains_cons] at h
        simp at h
      · intro x hx
        rw [List.map_cons, List.mem_cons] at hx
        cases hx with
        | inl h =>
          rw [h]
          exact Bool.eq_false_iff.mpr hs
        | inr h =>
          have h2 := hnotin x h
          rw [List.contains_cons] at h2
          exact (Bool.or_eq_false_iff.mp h2).2

theorem drop_duplicates_keys_nodup {β κ : Type} [BEq κ] [LawfulBEq κ]
    (k : β → κ) (rs : List β) :
    ((drop_duplicates rs k).map k).Nodup :=
  (dedupByKeyAux_keys_nodup k rs []).1

theorem dedupByKeyAux_sublist {β κ : Type} [BEq κ] (k : β → κ)
    (rs : List β) : ∀ seen, List.Sublist (dedupByKeyAux k seen rs) rs := by
  induction rs with
  | nil => intro seen; exact List.Sublist.refl []
  | cons r rest ih =>
    intro seen
    have heq : dedupByKeyAux k seen (r :: rest) =
        if seen.contains (k r) then dedupByKeyAux k seen rest
        else r :: dedupByKeyAux k (k r :: seen) rest := rfl
    rw [heq]
    by_cases hs : seen.contains (k r) = true
    · rw [if_pos hs]
      exact (ih seen).cons r
    · rw [if_neg hs]
      exact (ih (k r :: seen)).cons₂ r

theorem drop_duplicates_sublist {β κ : Type} [BEq κ] (k : β → κ)
    (rs : List β) : List.Sublist (drop_duplicates rs k) rs :=
  dedupByKeyAux_sublist k rs []

/-- Looking a key up in the deduplicated table finds exactly the first
matching row of the original table. -/
theorem drop_duplicates_find? {β κ : Type} [BEq κ] [LawfulBEq κ]
    (k : β → κ) (rs : List β) (key : κ) :
    (drop_duplicates rs k).find? (fun r => k r == key) =
      rs.find? (fun r => k r == key) := by
  rw [find?_eq_head?_filter, drop_duplicates_filter]
  cases rs.find? (fun r => k r == key) with
  | none => rfl
  | some r => rfl

/-- The outcode-fallback join: each pass-1 row is paired with the first
reference row (in source order) whose outcode equals the row's derived
outcode, and with `NaN` when there is none — one output row per input
row, unconditionally. -/
theorem merge2_eq_map (m1 : List (GPRow × Option RefRow))
    (refs : List RefRow) :
    merge2 m1 refs = m1.map (fun pr =>
      (pr, refs.find? (fun r =>
        r.outcode == outcodeOfPostcode pr.1.postCode))) := by
  unfold merge2
  rw [leftJoin_eq_map_find _ _ _ _
    (drop_duplicates_keys_nodup (fun r => r.outcode) refs)]
  simp only [drop_duplicates_find?]

end HealthRadar

namespace HealthRadar

theorem first_nonnull_cons_none (rest : List (Option String)) :
    first_nonnull (none :: rest) = first_nonnull rest := rfl

theorem first_nonnull_cons_some (s : String) (rest : List (Option String)) :
    first_nonnull (some s :: rest) =
      if pyStrip s = "" then first_nonnull rest else some (pyStrip s) := rfl

/--
**C1**: the two-pass merge produces exactly one output row per primary-table
row whenever the reference table has no duplicate normalized postcodes
(each primary row is paired with the unique postcode-exact match and the
first outcode match); and the outcode-fallback join never multiplies rows,
unconditionally.
-/
theorem C1_merger_cardinality :
    (∀ (gp : List GPRow) (refs : List RefRow),
      (refs.map (fun r => r.pcd2)).Nodup →
      two_pass_merge gp refs = gp.map (fun g =>
        ((g, refs.find? (fun r => r.pcd2 == g.postCode)),
          refs.find? (fun r => r.outcode == outcodeOfPostcode g.postCode))) ∧
      (two_pass_merge gp refs).length = gp.length) ∧
    (∀ (m1 : List (GPRow × Option RefRow)) (refs : List RefRow),
      (merge2 m1 refs).length = m1.length) := by
  constructor
  · intro gp refs hnd
    have h1 : merge1 gp refs =
        gp.map (fun g => (g, refs.find? (fun r => r.pcd2 == g.postCode))) :=
      leftJoin_eq_map_find gp refs _ _ hnd
    have h2 := merge2_eq_map (merge1 gp refs) refs
    have hmain : two_pass_merge gp refs = gp.map (fun g =>
        ((g, refs.find? (fun r => r.pcd2 == g.postCode)),
          refs.find? (fun r => r.outcode == outcodeOfPostcode g.postCode))) := by
      rw [show two_pass_merge gp refs = merge2 (merge1 gp refs) refs from rfl,
        h2, h1, List.map_map]
      rfl
    refine ⟨hmain, ?_⟩
    rw [hmain, List.length_map]
  · intro m1 refs
    rw [merge2_eq_map, List.length_map]

/-- Concrete instantiation of `C1_merger_cardinality` discharging its
no-duplicate-postcodes hypothesis. -/
theorem C1_merger_cardinality_witness :
    (([⟨some "SW1A 1AA", some "SW1A", [some "London"]⟩,
       ⟨some "EC1A 1BB", some "EC1A", [some "City"]⟩] :
        List RefRow).map (fun r => r.pcd2)).Nodup ∧
    (two_pass_merge [⟨some "A1", some "SW1A 1AA"⟩]
      [⟨some "SW1A 1AA", some "SW1A", [some "London"]⟩,
       ⟨some "EC1A 1BB", some "EC1A", [some "City"]⟩]).length = 1 := by
  refine ⟨by decide, ?_⟩
  exact ((C1_merger_cardinality.1 [⟨some "A1", some "SW1A 1AA"⟩]
    [⟨some "SW1A 1AA", some "SW1A", [some "London"]⟩,
     ⟨some "EC1A 1BB", some "EC1A", [some "City"]⟩] (by decide)).2).trans rfl

/--
**C8**: the outcode-indexed copy of the reference table used by the
fallback join holds exactly one row per distinct outcode — the first
occurrence in source order — it is a subsequence of the source table, and
the fallback join consults exactly the first source row per outcode, so
later rows with the same outcode are never consulted.
-/
theorem C8_outcode_dedup_first_occurrence :
    (∀ refs : List RefRow,
      ((drop_duplicates refs (fun r => r.outcode)).map
        (fun r => r.outcode)).Nodup) ∧
    (∀ refs : List RefRow,
      List.Sublist (drop_duplicates refs (fun r => r.outcode)) refs) ∧
    (∀ (refs : List RefRow) (key : Option String),
      (drop_duplicates refs (fun r => r.outcode)).filter
        (fun r => r.outcode == key) =
        (refs.find? (fun r => r.outcode == key)).toList) ∧
    (∀ (m1 : List (GPRow × Option RefRow)) (refs : List RefRow),
      merge2 m1 refs = m1.map (fun pr =>
        (pr, refs.find? (fun r =>
          r.outcode == outcodeOfPostcode pr.1.postCode)))) :=
  ⟨fun refs => drop_duplicates_keys_nodup _ refs,
   fun refs => drop_duplicates_sublist _ refs,
   fun refs key => drop_duplicates_filter _ refs key,
   merge2_eq_map⟩

/--
Counterexample to **C2** as stated: a present postcode-exact value with
surrounding whitespace coalesces to its *trimmed* form, not to the value
itself — `coalesce (some " X ") (some "Y") = some "X" ≠ some " X "`,
although `" X "` is present (non-null with non-empty trim).
-/
theorem C2_coalesce_counterexample :
    coalesce (some " X ") (some "Y") = some "X" ∧
    coalesce (some " X ") (some "Y") ≠ some " X " ∧
    pyStrip " X " ≠ "" := ⟨by decide, by decide, by decide⟩

/--
**C2 (amended)**: for every merged record and appended field, the
coalesced value is the *trimmed* postcode-exact value when that value is
present (non-null, non-empty after trimming), otherwise the *trimmed*
outcode-fallback value when present, otherwise missing; in particular a
record matching both paths takes the postcode-exact value, never the
outcode value.
-/
theorem C2_coalesce_trimmed_priority
    (row : (GPRow × Option RefRow) × Option RefRow) (i : Nat) :
    (∀ sx, geoField row.1.2 i = some sx → pyStrip sx ≠ "" →
      mergedGeoField row i = some (pyStrip sx)) ∧
    ((geoField row.1.2 i = none ∨
      ∃ sx, geoField row.1.2 i = some sx ∧ pyStrip sx = "") →
      ((∀ sy, geoField row.2 i = some sy → pyStrip sy ≠ "" →
        mergedGeoField row i = some (pyStrip sy)) ∧
       ((geoField row.2 i = none ∨
         ∃ sy, geoField row.2 i = some sy ∧ pyStrip sy = "") →
         mergedGeoField row i = none))) := by
  constructor
  · intro sx hx hne
    show first_nonnull [geoField row.1.2 i, geoField row.2 i] = _
    rw [hx, first_nonnull_cons_some, if_neg hne]
  · intro hx
    constructor
    · intro sy hy hne
      show first_nonnull [geoField row.1.2 i, geoField row.2 i] = _
      rw [hy]
      cases hx with
      | inl h =>
        rw [h, first_nonnull_cons_none, first_nonnull_cons_some, if_neg hne]
      | inr h =>
        obtain ⟨sx, hsx, hstrip⟩ := h
        rw [hsx, first_nonnull_cons_some, if_pos hstrip,
          first_nonnull_cons_some, if_neg hne]
    · intro hy
      show first_nonnull [geoField row.1.2 i, geoField row.2 i] = _
      have htail : first_nonnull [geoField row.2 i] = none := by
        cases hy with
        | inl h => rw [h, first_nonnull_cons_none]; rfl
        | inr h =>
          obtain ⟨sy, hsy, hstrip⟩ := h
          rw [hsy, first_nonnull_cons_some, if_pos hstrip]
          rfl
      cases hx with
      | inl h => rw [h, first_nonnull_cons_none, htail]
      | inr h =>
        obtain ⟨sx, hsx, hstrip⟩ := h
        rw [hsx, first_nonnull_cons_some, if_pos hstrip, htail]

/-- Concrete instantiation of `C2_coalesce_trimmed_priority`: a record
matching both paths (postcode value `" X "`, outcode value `"Y"`) takes
the trimmed postcode-exact value `"X"`. -/
theorem C2_coalesce_trimmed_priority_witness :
    geoField (some ⟨some "SW1A 1AA", some "SW1A", [some " X "]⟩) 0 =
      some " X " ∧
    pyStrip " X " ≠ "" ∧
    mergedGeoField ((⟨some "A1", some "SW1A 1AA"⟩,
      some ⟨some "SW1A 1AA", some "SW1A", [some " X "]⟩),
      some ⟨none, some "SW1A", [some "Y"]⟩) 0 = some "X" := by
  refine ⟨by decide, by decide, ?_⟩
  exact ((C2_coalesce_trimmed_priority ((⟨some "A1", some "SW1A 1AA"⟩,
    some ⟨some "SW1A 1AA", some "SW1A", [some " X "]⟩),
    some ⟨none, some "SW1A", [some "Y"]⟩) 0).1 " X " (by decide)
    (by decide)).trans (by decide)

end HealthRadar

namespace HealthRadar

/-! ### Header resolvers: `pick_col` (Practiceinformation.py 67-77) and
`find_column` (HealthDepriviation_2019.py 72-85) -/

/-- Auxiliary recursion for `re.sub(r"\s+", " ", s)`; the flag records
whether the previous character was part of a whitespace run. -/
def collapseWsAux : List Char → Bool → List Char
  | [], _ => []
  | c :: rest, inRun =>
    if pyIsSpace c then
      if inRun then collapseWsAux rest true
      else ' ' :: collapseWsAux rest true
    else c :: collapseWsAux rest false

/-- `re.sub(r"\s+", " ", s)`: replace each whitespace run by one space. -/
def collapseWs (l : List Char) : List Char :=
  collapseWsAux l false

/-- The normalization `re.sub(r"\s+", " ", c.strip().lower())` applied by
`pick_col` to both actual headers and candidates. -/
def normKey (s : String) : String :=
  ⟨collapseWs (pyLower (pyStrip s)).data⟩

/-- The normalization `col.lower().strip()` applied by `find_column` in
its case-insensitive fallback pass. -/
def ciKey (s : String) : String :=
  pyStrip (pyLower s)

/-- `pick_col`: a single case-insensitive whitespace-collapsing pass over
the candidates in order; the Python dict comprehension
`{normKey(c): c for c in df.columns}` keeps the LAST column per
normalized key, modelled by searching the reversed column list. -/
def pick_col (cols : List String) (cands : List String) : Option String :=
  cands.findSome? (fun cand =>
    (cols.reverse).find? (fun c => normKey c == normKey cand))

/-- `find_column`: first an exact pass over the candidates in order, then
a `lower().strip()` pass (dict again keeps the last column per key). -/
def find_column (cols : List String) (cands : List String) : Option String :=
  match cands.find? (fun cand => cols.contains cand) with
  | some c => some c
  | none =>
    cands.findSome? (fun cand =>
      (cols.reverse).find? (fun c => ciKey c == ciKey cand))

/--
Counterexample to **C4** as stated: with actual headers `["ab", "AB"]` and
candidates `["ab"]`, the candidate `"ab"` matches the header `"ab"`
exactly, yet `pick_col` resolves to `"AB"`: it has no exact-match-first
pass (its single normalized pass keeps the last header per normalized
key), so exact matching does not win in the `pick_col` implementation.
`find_column` does return the exact match `"ab"`.
-/
theorem C4_pick_col_counterexample :
    pick_col ["ab", "AB"] ["ab"] = some "AB" ∧
    find_column ["ab", "AB"] ["ab"] = some "ab" ∧
    ("ab" : String) ∈ (["ab", "AB"] : List String) :=
  ⟨by decide, by decide, by decide⟩

/--
**C4 (amended)**: `find_column` returns the first candidate matching an
actual header exactly, and only when no candidate matches exactly does it
fall back to lowercase-and-trim matching over the candidates in order;
if neither pass matches, the field is unresolved (`none`). `pick_col`
instead performs a single case-insensitive whitespace-collapsing pass
with no exact-match priority (the last header wins among headers with
equal normalization) and always returns one of the actual headers. On the
spec's example both implementations resolve
`["LSOA Code", "LSOA code (2011)"]` against
`["LSOA code (2011)", "Health  Score "]` to `"LSOA code (2011)"`.
-/
theorem C4_header_resolver_amended :
    (∀ cols cands c, cands.find? (fun cand => cols.contains cand) = some c →
      find_column cols cands = some c ∧ c ∈ cols) ∧
    (∀ cols cands, cands.find? (fun cand => cols.contains cand) = none →
      find_column cols cands =
        cands.findSome? (fun cand =>
          (cols.reverse).find? (fun c => ciKey c == ciKey cand))) ∧
    (∀ cols cands c, pick_col cols cands = some c → c ∈ cols) ∧
    find_column ["LSOA code (2011)", "Health  Score "]
      ["LSOA Code", "LSOA code (2011)"] = some "LSOA code (2011)" ∧
    pick_col ["LSOA code (2011)", "Health  Score "]
      ["LSOA Code", "LSOA code (2011)"] = some "LSOA code (2011)" := by
  refine ⟨?_, ?_, ?_, by decide, by decide⟩
  · intro cols cands c h
    constructor
    · show (match cands.find? (fun cand => cols.contains cand) with
        | some c => some c
        | none => cands.findSome? (fun cand =>
            (cols.reverse).find? (fun c => ciKey c == ciKey cand))) = some c
      rw [h]
    · have hc := List.find?_some h
      simp only at hc
      exact List.elem_iff.mp hc
  · intro cols cands h
    show (match cands.find? (fun cand => cols.contains cand) with
      | some c => some c
      | none => cands.findSome? (fun cand =>
          (cols.reverse).find? (fun c => ciKey c == ciKey cand))) = _
    rw [h]
  · intro cols cands c h
    obtain ⟨cand, _, hfind⟩ := List.exists_of_findSome?_eq_some h
    exact List.mem_reverse.mp (List.mem_of_find?_eq_some hfind)

/-- Concrete instantiation of `C4_header_resolver_amended` discharging its
hypothesis on the spec's example. -/
theorem C4_header_resolver_amended_witness :
    (["LSOA Code", "LSOA code (2011)"] : List String).find?
      (fun cand => (["LSOA code (2011)", "Health  Score "] :
        List String).contains cand) = some "LSOA code (2011)" ∧
    find_column ["LSOA code (2011)", "Health  Score "]
      ["LSOA Code", "LSOA code (2011)"] = some "LSOA code (2011)" := by
  refine ⟨by decide, ?_⟩
  exact (C4_header_resolver_amended.1 ["LSOA code (2011)", "Health  Score "]
    ["LSOA Code", "LSOA code (2011)"] "LSOA code (2011)" (by decide)).1

end HealthRadar

namespace HealthRadar

/-! ### Numeric parsing (gppatientregister.py `to_int`, gpcountwithage.py
numeric coercion) and the (period, entity) aggregator -/

/-- `str.replace(",", "")` — strip thousands separators. -/
def stripCommas (s : String) : String :=
  ⟨s.data.filter (fun c => !(c == ','))⟩

/-- Numeric value of a digit list (most significant first). -/
def digitsVal (l : List Char) : Nat :=
  l.foldl (fun acc c => acc * 10 + (c.toNat - 48)) 0

/-- `pd.to_numeric` modelled on integer-valued text: an optional sign
followed by at least one ASCII digit parses; anything else fails
(`none`). -/
def parsePyInt (s : String) : Option Int :=
  match s.data with
  | '-' :: rest =>
    if rest ≠ [] ∧ rest.all Char.isDigit then some (-(digitsVal rest : Int))
    else none
  | '+' :: rest =>
    if rest ≠ [] ∧ rest.all Char.isDigit then some ((digitsVal rest : Int))
    else none
  | l =>
    if l ≠ [] ∧ l.all Char.isDigit then some ((digitsVal l : Int))
    else none

/-- The numpy `int64` range reduction performed by `.astype("int64")` and
inside every int64 addition: reduce modulo `2 ^ 64` into
`[-2 ^ 63, 2 ^ 63)` (the literals are `2 ^ 63` and `2 ^ 64`); overflow
wraps silently. -/
def wrap64 (n : Int) : Int :=
  (n + 9223372036854775808) % 18446744073709551616 - 9223372036854775808

/-- numpy int64 addition: adds and wraps on overflow. -/
def add64 (a b : Int) : Int :=
  wrap64 (a + b)

/-- `to_int` from `gppatientregister.py` (lines 94-103): strip commas and
whitespace, then `pd.to_numeric(..., errors="raise").astype("int64")` —
a single unparseable value fails the whole series (the raised error
propagates, modelled by `none`); the `astype` cast reduces each value
into the int64 range. -/
def to_int (vals : List String) : Option (List Int) :=
  vals.mapM (fun v => (parsePyInt (pyStrip (stripCommas v))).map wrap64)

/-- One cell of `gpcountwithage.py` line 134:
`pd.to_numeric(df[col], errors="coerce").fillna(0).astype(int)` — missing
or unparseable values are silently coerced to 0 (cells were stripped by
`_read_csv`; commas are NOT stripped in this script). -/
def workforce_cell (v : Option String) : Int :=
  match v with
  | none => 0
  | some s => (parsePyInt (pyStrip s)).getD 0

/-- The age-column conversion plus the `TotalGP` row sum of
`gpcountwithage.py` (lines 133-136): it never fails and produces one
output row per input row. -/
def workforce_totals (rows : List (List (Option String))) :
    List (List Int × Int) :=
  rows.map (fun r =>
    (r.map workforce_cell, (r.map workforce_cell).sum))

/-- A parsed record of the patient-register aggregation:
(YearMonth, PracticeCode, NumberOfPatients); `numberOfPatients` carries
an int64 value, i.e. a fixed point of `wrap64`. -/
structure RegRow where
  yearMonth : String
  practiceCode : String
  numberOfPatients : Int

def rowKey (r : RegRow) : String × String :=
  (r.yearMonth, r.practiceCode)

/-- int64 sum of `NumberOfPatients` over the records with a given
(YearMonth, PracticeCode) key — the `groupby(...).sum()` accumulation in
numpy int64, wrapping at every addition. -/
def sumByKey (rows : List RegRow) (k : String × String) : Int :=
  ((rows.filter (fun r => rowKey r == k)).map
    (fun r => r.numberOfPatients)).foldl add64 0

/-- Codepoint-lexicographic strict order on character lists — the order
pandas uses when sorting string columns. -/
def charsLt : List Char → List Char → Bool
  | _, [] => false
  | [], _ :: _ => true
  | a :: as, b :: bs =>
    if a.toNat < b.toNat then true
    else if b.toNat < a.toNat then false
    else charsLt as bs

def strLt (a b : String) : Bool :=
  charsLt a.data b.data

/-- `(YearMonth, PracticeCode) ≤ (YearMonth, PracticeCode)` in the
ascending order of `groupby(..., sort=True)` /
`sort_values(["YearMonth", "PracticeCode"])`. -/
def keyLe (a b : String × String) : Bool :=
  strLt a.1 b.1 || (a.1 == b.1 && (strLt a.2 b.2 || a.2 == b.2))

def insertSortedKey (x : (String × String) × Int) :
    List ((String × String) × Int) → List ((String × String) × Int)
  | [] => [x]
  | y :: ys => if keyLe x.1 y.1 then x :: y :: ys else y :: insertSortedKey x ys

def sortByKey (l : List ((String × String) × Int)) :
    List ((String × String) × Int) :=
  l.foldr insertSortedKey []

/-- `aggregate_all` from `gppatientregister.py` (lines 122-145): group by
(YearMonth, PracticeCode), sum `NumberOfPatients` in numpy int64
(wrapping on overflow, see `add64`), one output record per distinct key,
sorted ascending by YearMonth then PracticeCode. -/
def aggregate_all (rows : List RegRow) : List ((String × String) × Int) :=
  sortByKey ((drop_duplicates (rows.map rowKey) id).map
    (fun k => (k, sumByKey rows k)))

/-- `read_one_csv`: parse the raw (EXTRACT_DATE-derived YearMonth,
PracticeCode, NumberOfPatients-text) triples, casting each count to
int64 as `to_int` does; a single bad numeric fails the run. -/
def register_rows (raw : List (String × String × String)) :
    Option (List RegRow) :=
  raw.mapM (fun t => (parsePyInt (pyStrip (stripCommas t.2.2))).map
    (fun n => RegRow.mk t.1 t.2.1 (wrap64 n)))

/-- The whole patient-register pipeline: parse every file's rows, then
aggregate; on a parse failure nothing is written (`none`). -/
def gppatientregister_process (raw : List (String × String × String)) :
    Option (List ((String × String) × Int)) :=
  (register_rows raw).map aggregate_all

end HealthRadar

namespace HealthRadar

/-! ### The codepoint-lexicographic key order is total and transitive -/

theorem char_toNat_inj {a b : Char} (h : a.toNat = b.toNat) : a = b := by
  have h2 := congrArg Char.ofNat h
  rwa [Char.ofNat_toNat, Char.ofNat_toNat] at h2

theorem charsLt_cons_iff (a b : Char) (as bs : List Char) :
    charsLt (a :: as) (b :: bs) = true ↔
      a.toNat < b.toNat ∨ (a.toNat = b.toNat ∧ charsLt as bs = true) := by
  show (if a.toNat < b.toNat then true
    else if b.toNat < a.toNat then false else charsLt as bs) = true ↔ _
  by_cases h1 : a.toNat < b.toNat
  · rw [if_pos h1]
    simp [h1]
  · rw [if_neg h1]
    by_cases h2 : b.toNat < a.toNat
    · rw [if_pos h2]
      constructor
      · intro h; simp at h
      · rintro (h | ⟨heq, _⟩) <;> omega
    · rw [if_neg h2]
      have heq : a.toNat = b.toNat := by omega
      constructor
      · intro h; exact Or.inr ⟨heq, h⟩
      · rintro (h | ⟨_, h⟩)
        · omega
        · exact h

theorem charsLt_trichotomy : ∀ (a b : List Char),
    charsLt a b = true ∨ a = b ∨ charsLt b a = true := by
  intro a
  induction a with
  | nil =>
    intro b
    cases b with
    | nil => exact Or.inr (Or.inl rfl)
    | cons y ys => exact Or.inl rfl
  | cons x xs ih =>
    intro b
    cases b with
    | nil => exact Or.inr (Or.inr rfl)
    | cons y ys =>
      rcases Nat.lt_trichotomy x.toNat y.toNat with h | h | h
      · exact Or.inl ((charsLt_cons_iff x y xs ys).mpr (Or.inl h))
      · rcases ih ys with h2 | h2 | h2
        · exact Or.inl ((charsLt_cons_iff x y xs ys).mpr (Or.inr ⟨h, h2⟩))
        · exact Or.inr (Or.inl (by rw [char_toNat_inj h, h2]))
        · exact Or.inr (Or.inr
            ((charsLt_cons_iff y x ys xs).mpr (Or.inr ⟨h.symm, h2⟩)))
      · exact Or.inr (Or.inr ((charsLt_cons_iff y x ys xs).mpr (Or.inl h)))

theorem charsLt_trans : ∀ (a b c : List Char),
    charsLt a b = true → charsLt b c = true → charsLt a c = true := by
  intro a
  induction a with
  | nil =>
    intro b c hab hbc
    cases c with
    | nil =>
      cases b with
      | nil => exact Bool.noConfusion hab
      | cons x xs => exact Bool.noConfusion hbc
    | cons y ys => rfl
  | cons x xs ih =>
    intro b c hab hbc
    cases b with
    | nil => exact Bool.noConfusion hab
    | cons y ys =>
      cases c with
      | nil => exact Bool.noConfusion hbc
      | cons z zs =>
        rw [charsLt_cons_iff] at hab hbc ⊢
        rcases hab with h1 | ⟨h1, h1'⟩ <;> rcases hbc with h2 | ⟨h2, h2'⟩
        · exact Or.inl (by omega)
        · exact Or.inl (by omega)
        · exact Or.inl (by omega)
        · exact Or.inr ⟨by omega, ih ys zs h1' h2'⟩

theorem keyLe_total (a b : String × String) :
    keyLe a b = true ∨ keyLe b a = true := by
  unfold keyLe strLt
  rcases charsLt_trichotomy a.1.data b.1.data with h | h | h
  · left; simp [h]
  · have he : a.1 = b.1 := String.ext h
    rcases charsLt_trichotomy a.2.data b.2.data with h2 | h2 | h2
    · left; simp [he, h2]
    · have he2 : a.2 = b.2 := String.ext h2
      left; simp [he, he2]
    · right; simp [he, h2]
  · right; simp [h]

theorem keyLe_trans (a b c : String × String) :
    keyLe a b = true → keyLe b c = true → keyLe a c = true := by
  intro hab hbc
  unfold keyLe strLt at hab hbc ⊢
  rw [Bool.or_eq_true, Bool.and_eq_true, Bool.or_eq_true] at hab hbc ⊢
  rcases hab with h1 | ⟨he1, h1⟩
  · rcases hbc with h2 | ⟨he2, h2⟩
    · exact Or.inl (charsLt_trans _ _ _ h1 h2)
    · have he : b.1 = c.1 := eq_of_beq he2
      exact Or.inl (by rw [← he]; exact h1)
  · have hab1 : a.1 = b.1 := eq_of_beq he1
    rcases hbc with h2 | ⟨he2, h2⟩
    · exact Or.inl (by rw [hab1]; exact h2)
    · right
      refine ⟨beq_iff_eq.mpr (hab1.trans (eq_of_beq he2)), ?_⟩
      rcases h1 with h1' | h1'
      · rcases h2 with h2' | h2'
        · exact Or.inl (charsLt_trans _ _ _ h1' h2')
        · exact Or.inl (by rw [← eq_of_beq h2']; exact h1')
      · have he12 : a.2 = b.2 := eq_of_beq h1'
        rcases h2 with h2' | h2'
        · exact Or.inl (by rw [he12]; exact h2')
        · exact Or.inr (beq_iff_eq.mpr (he12.trans (eq_of_beq h2')))

/-- The relation the aggregated output is sorted by. -/
def keyRel (a b : (String × String) × Int) : Prop :=
  keyLe a.1 b.1 = true

theorem keyRel_total (a b : (String × String) × Int) :
    keyRel a b ∨ keyRel b a :=
  keyLe_total a.1 b.1

theorem keyRel_trans {a b c : (String × String) × Int} :
    keyRel a b → keyRel b c → keyRel a c :=
  keyLe_trans _ _ _

theorem insertSortedKey_perm (x : (String × String) × Int)
    (l : List ((String × String) × Int)) :
    List.Perm (insertSortedKey x l) (x :: l) := by
  induction l with
  | nil => exact List.Perm.refl _
  | cons y ys ih =>
    show List.Perm
      (if keyLe x.1 y.1 then x :: y :: ys else y :: insertSortedKey x ys)
      (x :: y :: ys)
    by_cases h : keyLe x.1 y.1 = true
    · rw [if_pos h]
    · rw [if_neg h]
      exact (ih.cons y).trans (List.Perm.swap x y ys)

theorem insertSortedKey_pairwise (x : (String × String) × Int)
    (l : List ((String × String) × Int)) (hl : l.Pairwise keyRel) :
    (insertSortedKey x l).Pairwise keyRel := by
  induction l with
  | nil => exact List.pairwise_singleton _ _
  | cons y ys ih =>
    show (if keyLe x.1 y.1 then x :: y :: ys
      else y :: insertSortedKey x ys).Pairwise keyRel
    rcases List.pairwise_cons.mp hl with ⟨hy, hys⟩
    by_cases h : keyLe x.1 y.1 = true
    · rw [if_pos h]
      refine List.pairwise_cons.mpr ⟨?_, hl⟩
      intro z hz
      rcases List.mem_cons.mp hz with rfl | hz'
      · exact h
      · exact keyRel_trans h (hy z hz')
    · rw [if_neg h]
      refine List.pairwise_cons.mpr ⟨?_, ih hys⟩
      intro z hz
      have hz2 := (insertSortedKey_perm x ys).mem_iff.mp hz
      rcases List.mem_cons.mp hz2 with rfl | hz'
      · rcases keyRel_total y z with hr | hr
        · exact hr
        · exact absurd hr h
      · exact hy z hz'

theorem sortByKey_pairwise (l : List ((String × String) × Int)) :
    (sortByKey l).Pairwise keyRel := by
  induction l with
  | nil => exact List.Pairwise.nil
  | cons a l ih => exact insertSortedKey_pairwise a _ ih

theorem sortByKey_perm (l : List ((String × String) × Int)) :
    List.Perm (sortByKey l) l := by
  induction l with
  | nil => exact List.Perm.refl _
  | cons a l ih => exact (insertSortedKey_perm a (sortByKey l)).trans (ih.cons a)

theorem find?_prop {β : Type} (q : β → Bool) (l : List β) (r : β)
    (h : l.find? q = some r) : q r = true :=
  List.find?_some h

theorem mem_drop_duplicates_id {κ : Type} [BEq κ] [LawfulBEq κ]
    (l : List κ) (x : κ) :
    x ∈ drop_duplicates l id ↔ x ∈ l := by
  constructor
  · intro h
    exact (drop_duplicates_sublist id l).subset h
  · intro h
    have hfil := drop_duplicates_filter id l x
    have hx : x ∈ (drop_duplicates l id).filter (fun r => id r == x) := by
      rw [hfil]
      cases hfind : l.find? (fun r => id r == x) with
      | none =>
        rw [List.find?_eq_none] at hfind
        have := hfind x h
        simp at this
      | some r =>
        have hp := find?_prop (fun r => id r == x) l r hfind
        have hr : r = x := by simpa using hp
        rw [hr]
        simp
    exact List.mem_of_mem_filter hx

end HealthRadar

namespace HealthRadar

theorem mapM_option_eq_none {α β : Type} (f : α → Option β) :
    ∀ (l : List α) (a : α), a ∈ l → f a = none → l.mapM f = none := by
  intro l
  induction l with
  | nil =>
    intro a ha
    cases ha
  | cons x xs ih =>
    intro a ha hf
    rw [List.mapM_cons]
    rcases List.mem_cons.mp ha with rfl | ha'
    · rw [hf]
      rfl
    · cases hx : f x with
      | none => rfl
      | some b =>
        rw [ih a ha' hf]
        rfl

/--
Counterexample to **C5** as stated: the workforce script
(`gpcountwithage.py`) does not treat an unparseable numeric value as a
fatal error — `pd.to_numeric(..., errors="coerce").fillna(0)` silently
coerces `"N/A"` to `0` and still produces an output row — whereas the
patient-register script (`gppatientregister.py`) does fail and produces
no output.
-/
theorem C5_numeric_parsing_counterexample :
    gppatientregister_process [("202309", "A001", "N/A")] = none ∧
    workforce_cell (some "N/A") = 0 ∧
    workforce_totals [[some "N/A"]] = [([0], 0)] :=
  ⟨by decide, by decide, by decide⟩

/--
**C5 (amended)**: in the patient-register script any value that fails
numeric parsing after stripping thousands separators is fatal — the whole
run yields no output; the workforce script instead coerces every
unparseable or missing value to 0 and always produces one output row per
input row (no parse failure is fatal there).
-/
theorem C5_numeric_fatal_vs_coerce (raw : List (String × String × String))
    (rows : List (List (Option String))) :
    ((∃ t ∈ raw, parsePyInt (pyStrip (stripCommas t.2.2)) = none) →
      gppatientregister_process raw = none) ∧
    (workforce_totals rows).length = rows.length ∧
    workforce_cell (some "N/A") = 0 := by
  refine ⟨?_, List.length_map _ _, by decide⟩
  rintro ⟨t, ht, hparse⟩
  have h := mapM_option_eq_none
    (fun t => (parsePyInt (pyStrip (stripCommas t.2.2))).map
      (fun n => RegRow.mk t.1 t.2.1 (wrap64 n))) raw t ht
    (by show (parsePyInt (pyStrip (stripCommas t.2.2))).map
          (fun n => RegRow.mk t.1 t.2.1 (wrap64 n)) = none
        rw [hparse]
        rfl)
  unfold gppatientregister_process register_rows
  rw [h]
  rfl

/-- Concrete instantiation of `C5_numeric_fatal_vs_coerce` discharging its
hypothesis at the unparseable value `"N/A"`. -/
theorem C5_numeric_fatal_vs_coerce_witness :
    (∃ t ∈ ([("202309", "A001", "N/A")] : List (String × String × String)),
      parsePyInt (pyStrip (stripCommas t.2.2)) = none) ∧
    gppatientregister_process [("202309", "A001", "N/A")] = none := by
  refine ⟨⟨("202309", "A001", "N/A"), by decide, by decide⟩, ?_⟩
  exact (C5_numeric_fatal_vs_coerce [("202309", "A001", "N/A")] []).1
    ⟨("202309", "A001", "N/A"), by decide, by decide⟩

theorem wrap64_add_left (a b : Int) :
    wrap64 (wrap64 a + b) = wrap64 (a + b) := by
  unfold wrap64
  omega

/-- Folding int64 addition over a list equals the int64 reduction of the
mathematical sum: int64 addition is associative modulo `2 ^ 64`. -/
theorem foldl_add64_eq_wrap64 (l : List Int) : ∀ a : Int,
    l.foldl add64 (wrap64 a) = wrap64 (a + l.sum) := by
  induction l with
  | nil =>
    intro a
    show wrap64 a = wrap64 (a + ([] : List Int).sum)
    rw [List.sum_nil, add_zero]
  | cons x xs ih =>
    intro a
    show xs.foldl add64 (add64 (wrap64 a) x) = _
    rw [show add64 (wrap64 a) x = wrap64 (a + x) from wrap64_add_left a x,
      ih (a + x), List.sum_cons, add_assoc]

/-- The per-key int64 group sum is the int64 reduction of the
mathematical per-key sum. -/
theorem sumByKey_eq_wrap64_sum (rows : List RegRow) (k : String × String) :
    sumByKey rows k =
      wrap64 (((rows.filter (fun r => rowKey r == k)).map
        (fun r => r.numberOfPatients)).sum) := by
  unfold sumByKey
  conv_lhs => rw [show (0 : Int) = wrap64 0 from by decide]
  rw [foldl_add64_eq_wrap64, zero_add]

/--
**C7**: the aggregator groups by (YearMonth, PracticeCode) and sums
`NumberOfPatients` in numpy int64: the output has exactly one record per
distinct key of the input (keys pairwise distinct, and a key appears in
the output iff some input record bears it), each output value is the
int64 group sum over the input records with that key — the mathematical
sum reduced modulo `2 ^ 64` into the int64 range, wrapping silently on
overflow — and the output is ordered ascending by YearMonth then
PracticeCode; rows `(202309, "A001", "1,200")` and
`(202309, "A001", "300")` aggregate to the single row
`(202309, "A001", 1500)`.
-/
theorem C7_aggregator_groupby_sum :
    (∀ rows : List RegRow,
      ((aggregate_all rows).map Prod.fst).Nodup ∧
      (aggregate_all rows).Pairwise (fun a b => keyLe a.1 b.1 = true) ∧
      (∀ k : String × String,
        k ∈ (aggregate_all rows).map Prod.fst ↔ k ∈ rows.map rowKey) ∧
      (∀ p ∈ aggregate_all rows, p.2 = sumByKey rows p.1) ∧
      (∀ k : String × String, sumByKey rows k =
        wrap64 (((rows.filter (fun r => rowKey r == k)).map
          (fun r => r.numberOfPatients)).sum))) ∧
    gppatientregister_process
      [("202309", "A001", "1,200"), ("202309", "A001", "300")] =
      some [(("202309", "A001"), 1500)] := by
  constructor
  · intro rows
    have hperm : List.Perm (aggregate_all rows)
        ((drop_duplicates (rows.map rowKey) id).map
          (fun k => (k, sumByKey rows k))) :=
      sortByKey_perm _
    have hkeys : ((drop_duplicates (rows.map rowKey) id).map
        (fun k => (k, sumByKey rows k))).map Prod.fst =
        drop_duplicates (rows.map rowKey) id := by
      rw [List.map_map]
      exact List.map_id _
    refine ⟨?_, ?_, ?_, ?_, ?_⟩
    · have h1 := drop_duplicates_keys_nodup id (rows.map rowKey)
      rw [List.map_id] at h1
      exact ((hperm.map Prod.fst).nodup_iff).mpr (by rw [hkeys]; exact h1)
    · exact sortByKey_pairwise _
    · intro k
      rw [List.Perm.mem_iff (hperm.map Prod.fst), hkeys]
      exact mem_drop_duplicates_id _ k
    · intro p hp
      have hp2 := hperm.mem_iff.mp hp
      obtain ⟨k, _, heq⟩ := List.mem_map.mp hp2
      rw [← heq]
    · intro k
      exact sumByKey_eq_wrap64_sum rows k
  · decide

end HealthRadar

namespace HealthRadar

/-! ### Exit behavior (C6): `HealthDepriviation_2019.main` and
`Practiceinformation.main` -/

/-- `COL_CANDIDATES` from `HealthDepriviation_2019.py` (lines 48-70). -/
def HD_COL_CANDIDATES : List (String × List String) :=
  [("LSOA_Code",
    ["LSOA code (2011)", "LSOA code", "LSOA Code (2011)", "LSOA Code"]),
   ("Health_Score",
    ["Health Deprivation and Disability Score",
     "Health Deprivation & Disability Score",
     "Health Deprivation/Disability Score"]),
   ("Health_Rank",
    ["Health Deprivation and Disability Rank (where 1 is most deprived)",
     "Health Deprivation & Disability Rank (where 1 is most deprived)",
     "Health Deprivation/Disability Rank (where 1 is most deprived)"]),
   ("Health_Decile",
    ["Health Deprivation and Disability Decile (where 1 is most deprived 10% of LSOAs)",
     "Health Deprivation & Disability Decile (where 1 is most deprived 10% of LSOAs)",
     "Health Deprivation/Disability Decile (where 1 is most deprived 10% of LSOAs)"])]

/-- The observable input state of `HealthDepriviation_2019.main`: whether
the input file exists and the raw header of the loaded CSV. -/
structure HDInput where
  inputExists : Bool
  header : List String

/--
Control-flow model of `HealthDepriviation_2019.main` (lines 90-135),
returning (process exit code, whether an error was logged, whether the
output file was written). A missing input file hits `logging.error` +
`return` (line 94-96); an unresolvable column sets `all_found = False`,
logs an error, and skips the write (lines 112-135); in every one of these
paths `main` returns normally, so the interpreter exits with code 0.
-/
def HD_main (inp : HDInput) : Nat × Bool × Bool :=
  if !inp.inputExists then (0, true, false)
  else if HD_COL_CANDIDATES.all (fun tc =>
      (find_column (inp.header.map pyStrip) tc.2).isSome) then
    (0, false, true)
  else (0, true, false)

/-- `want_map` from `Practiceinformation.py` (lines 93-104). -/
def PI_want_map : List (String × List String) :=
  [("PracticeCode",
    ["Organisation Code", "Organization Code", "Org Code", "ODS Code",
     "Practice Code"]),
   ("PracticeName", ["Name", "Practice Name"]),
   ("Addr1", ["Address Line 1", "Address1", "Address Line1"]),
   ("Addr2", ["Address Line 2", "Address2", "Address Line2"]),
   ("Addr3", ["Address Line 3", "Address3", "Address Line3"]),
   ("Addr4", ["Address Line 4", "Address4", "Address Line4"]),
   ("Addr5", ["Address Line 5", "Address5", "Address Line5", "Address Line"]),
   ("PostCode", ["Postcode", "Post Code", "Postal Code", "PostCode"]),
   ("Status", ["Status"]),
   ("CountryName", ["CountryName", "Country", "Nation"])]

/-- The required GP columns (line 106). -/
def PI_required : List String :=
  ["PracticeCode", "PracticeName", "PostCode", "Status", "Addr1"]

def PI_candidatesFor (key : String) : List String :=
  ((PI_want_map.find? (fun tc => tc.1 == key)).map (fun tc => tc.2)).getD []

/-- The observable input state of `Practiceinformation.main`. -/
structure PIInput where
  gpExists : Bool
  gpHeader : List String
  mapExists : Bool
  mapHeader : List String

/-- The distinct terminations of `run` (Practiceinformation.py): a raised
file error (`FileNotFoundError` from `read_csv`), `raise SystemExit(code)`
(lines 111, 142), or normal completion. -/
inductive PIOutcome
  | fileError
  | sysExit (code : Nat)
  | success

/-- Control-flow model of `run` up to its fatal checks: missing GP file,
missing required GP column (`SystemExit 2`), missing mapping file,
missing postcode column in the mapping (`SystemExit 3`). -/
def PI_run (inp : PIInput) : PIOutcome :=
  if !inp.gpExists then .fileError
  else if PI_required.any (fun key =>
      (pick_col inp.gpHeader (PI_candidatesFor key)).isNone) then
    .sysExit 2
  else if !inp.mapExists then .fileError
  else if (pick_col inp.mapHeader
      ["PCD2", "Postcode", "PCD", "PCD7", "pcd2"]).isNone then
    .sysExit 3
  else .success

/--
Exit model of `Practiceinformation.main` (lines 254-261): `except
Exception` catches the file error, logs it and calls `sys.exit(1)`;
`SystemExit` is not an `Exception` subclass, so it propagates and the
interpreter exits with its code (2 or 3), the error having been logged
before the raise; on success the exit code is 0. Returns (exit code,
whether an error was logged).
-/
def PI_main (inp : PIInput) : Nat × Bool :=
  match PI_run inp with
  | .fileError => (1, true)
  | .sysExit c => (c, true)
  | .success => (0, false)

/--
Counterexample to **C6** as stated: with the input file missing,
`HealthDepriviation_2019.main` logs an error and returns normally — the
process exits with code 0, not a non-zero code, and no output is
written.
-/
theorem C6_exit_code_counterexample :
    HD_main ⟨false, []⟩ = (0, true, false) := rfl

/--
**C6 (amended)**: every fatal condition logs an error, and every script
exits zero on success; but only `Practiceinformation` exits non-zero on
fatal conditions (1 for a missing input file, 2/3 for unresolvable
required columns via `SystemExit`), while `HealthDepriviation_2019`
always exits with code 0 — on a missing input file or an unresolvable
required column it logs the error and writes no output but still exits 0.
-/
theorem C6_exit_behavior_amended :
    (∀ inp : HDInput, (HD_main inp).1 = 0) ∧
    (∀ inp : HDInput, inp.inputExists = false →
      HD_main inp = (0, true, false)) ∧
    (∀ inp : HDInput, inp.inputExists = true →
      HD_COL_CANDIDATES.all (fun tc =>
        (find_column (inp.header.map pyStrip) tc.2).isSome) = false →
      HD_main inp = (0, true, false)) ∧
    (∀ inp : PIInput, inp.gpExists = false → PI_main inp = (1, true)) ∧
    (∀ inp : PIInput, inp.gpExists = true →
      PI_required.any (fun key =>
        (pick_col inp.gpHeader (PI_candidatesFor key)).isNone) = true →
      PI_main inp = (2, true)) ∧
    (∀ inp : PIInput, PI_run inp = .success → PI_main inp = (0, false)) := by
  refine ⟨?_, ?_, ?_, ?_, ?_, ?_⟩
  · intro inp
    unfold HD_main
    by_cases h1 : (!inp.inputExists) = true
    · rw [if_pos h1]
    · rw [if_neg h1]
      by_cases h2 : HD_COL_CANDIDATES.all (fun tc =>
          (find_column (inp.header.map pyStrip) tc.2).isSome) = true
      · rw [if_pos h2]
      · rw [if_neg h2]
  · intro inp h
    unfold HD_main
    rw [if_pos (by rw [h]; rfl)]
  · intro inp h1 h2
    unfold HD_main
    rw [if_neg (by rw [h1]; simp), if_neg (by rw [h2]; simp)]
  · intro inp h
    unfold PI_main PI_run
    rw [if_pos (by rw [h]; rfl)]
  · intro inp h1 h2
    unfold PI_main PI_run
    rw [if_neg (by rw [h1]; simp), if_pos h2]
  · intro inp h
    unfold PI_main
    rw [h]

/-- Concrete instantiation of `C6_exit_behavior_amended` discharging its
hypotheses: missing GP file makes `Practiceinformation` exit 1 with a
logged error. -/
theorem C6_exit_behavior_amended_witness :
    (⟨false, [], false, []⟩ : PIInput).gpExists = false ∧
    PI_main ⟨false, [], false, []⟩ = (1, true) := by
  refine ⟨rfl, ?_⟩
  exact C6_exit_behavior_amended.2.2.2.1 ⟨false, [], false, []⟩ rfl

end HealthRadar

namespace HealthRadar

/-- Concrete instantiation of `C7_aggregator_groupby_sum` discharging its
membership hypothesis on the spec's example rows. -/
theorem C7_aggregator_groupby_sum_witness :
    ((("202309", "A001"), (1500 : Int)) ∈
      aggregate_all [⟨"202309", "A001", 1200⟩, ⟨"202309", "A001", 300⟩]) ∧
    ((("202309", "A001"), (1500 : Int)) : (String × String) × Int).2 =
      sumByKey [⟨"202309", "A001", 1200⟩, ⟨"202309", "A001", 300⟩]
        ("202309", "A001") := by
  refine ⟨by decide, ?_⟩
  exact (C7_aggregator_groupby_sum.1 [⟨"202309", "A001", 1200⟩,
    ⟨"202309", "A001", 300⟩]).2.2.2.1 (("202309", "A001"), (1500 : Int))
    (by decide)

end HealthRadar
